import Mathlib

/-!
Verification of the `bookstore.py` command-line inventory manager.

The program keeps one SQLite table of book records and offers add / search /
update / delete workflows behind a numbered menu.  We embed the table as a
list of records plus the AUTOINCREMENT sequence counter, the SQL `LIKE`
matcher (default SQLite semantics: `%` and `_` wildcards, ASCII
case-insensitive comparison) as a recursive Boolean matcher on character
lists, and the interactive loops as functions over the list of entered
inputs.
-/

namespace Bookstore

/-- ASCII lower-casing of one character.  This is the case folding SQLite's
default `LIKE` applies, and the model of `.lower()` for the
single-character menu choices. -/
def lc (c : Char) : Char :=
  if 65 ≤ c.toNat ∧ c.toNat ≤ 90 then Char.ofNat (c.toNat + 32) else c

/-- ASCII lower-casing of a string (`.lower()` on the menu input). -/
def strLower (s : String) : String :=
  ⟨s.data.map lc⟩

/-- SQLite `LIKE`: `%` matches any sequence of characters (equivalently,
the rest of the pattern matches some suffix of the string), `_` matches any
single character, and any other pattern character matches
case-insensitively (ASCII).  `likeMatch pat s` decides whether string `s`
matches pattern `pat`, both given as character lists. -/
def likeMatch : List Char → List Char → Bool
  | [], s => s.isEmpty
  | '%' :: ps, s => s.tails.any (fun t => likeMatch ps t)
  | '_' :: ps, s =>
    match s with
    | [] => false
    | _ :: s' => likeMatch ps s'
  | p :: ps, s =>
    match s with
    | [] => false
    | c :: s' => (lc p == lc c) && likeMatch ps s'

/-- `Title LIKE ? OR Author LIKE ?` applied to one field, with the pattern
and the field both given as strings. -/
def likeMatchStr (pat s : String) : Bool :=
  likeMatch pat.data s.data

/-- `query = f"%{query}%"` — the wildcard wrapping both `query_for_books`
and `search_books` apply before calling `find_matching_books`. -/
def wrapQuery (q : String) : String :=
  "%" ++ q ++ "%"

/-- A pattern free of the `LIKE` metacharacters `%` and `_`, i.e. one that
is matched purely literally (up to ASCII case). -/
def plainPat (q : List Char) : Prop :=
  ∀ c ∈ q, c ≠ '%' ∧ c ≠ '_'

instance (q : List Char) : Decidable (plainPat q) := by
  unfold plainPat; infer_instance

/-- `s` contains `q` as a substring, comparing ASCII-case-insensitively —
the "substring anywhere in title or author" reading of the search
contract. -/
def containsCI (q s : String) : Bool :=
  decide ((q.data.map lc) <:+: (s.data.map lc))

/-- The `Book` record class: id, title, author, quantity.  `Qty` is an SQL
`INTEGER`, so it is modelled as `Int` (the schema places no sign
constraint on it). -/
structure Book where
  id : Nat
  title : String
  author : String
  qty : Int
deriving DecidableEq

/-- The database: the rows of the `books` table together with the
AUTOINCREMENT sequence counter (SQLite keeps it in `sqlite_sequence`; it is
at least every id ever assigned). -/
structure DB where
  rows : List Book
  seq : Nat
deriving DecidableEq

/-- The invariant SQLite's AUTOINCREMENT maintains: every id in the table
is at most the sequence counter. -/
def seqInv (db : DB) : Prop :=
  ∀ b ∈ db.rows, b.id ≤ db.seq

instance (db : DB) : Decidable (seqInv db) := by
  unfold seqInv; infer_instance

/-- `find_matching_books`: `SELECT * FROM books WHERE Title LIKE ? OR
Author LIKE ?`, rows returned in storage order. -/
def find_matching_books (rows : List Book) (query : String) : List Book :=
  rows.filter (fun b => likeMatchStr query b.title || likeMatchStr query b.author)

/-- The insert step of `add_books`: `INSERT INTO books (Title, Author, Qty)
VALUES (?, ?, ?)`; SQLite assigns `seq + 1` as the new id and bumps the
sequence.  Returns the new database and the assigned id. -/
def insertBook (db : DB) (title author : String) (qty : Int) : DB × Nat :=
  let newId := db.seq + 1
  ({ rows := db.rows ++ [⟨newId, title, author, qty⟩], seq := newId }, newId)

/-- The guards `add_books` places on its inputs: title and author come from
`input_non_empty_string` (non-empty), the quantity from `input_integer`
(any integer, with no sign check). -/
def addAccepts (title author : String) (_qty : Int) : Prop :=
  title.length > 0 ∧ author.length > 0

instance (t a : String) (q : Int) : Decidable (addAccepts t a q) := by
  unfold addAccepts; infer_instance

/-- `UPDATE books SET Title = ?, Author = ?, Qty = ? WHERE id = ?`: every
row whose id matches gets the three new field values; `id` is not in the
SET list and is kept. -/
def updateBook (db : DB) (i : Nat) (t a : String) (q : Int) : DB :=
  { db with rows := db.rows.map (fun b => if b.id = i then ⟨b.id, t, a, q⟩ else b) }

/-- `DELETE FROM books WHERE id = ?`. -/
def delete_book (db : DB) (i : Nat) : DB :=
  { db with rows := db.rows.filter (fun b => b.id ≠ i) }

/-- Fetching the record with a given id (a `SELECT ... WHERE id = ?`): the
first row whose id matches, if any. -/
def fetchBook (db : DB) (i : Nat) : Option Book :=
  db.rows.find? (fun b => b.id == i)

/-- The merge step of `update_book`: a new `Book` keeping the selected
book's id, taking each entered field when it is non-blank (for the
quantity: when `input_integer_or_none` returned a value) and otherwise
keeping the existing one. -/
def mergeBook (book : Book) (newTitle newAuthor : String) (newQty : Option Int) : Book :=
  ⟨book.id,
   if newTitle.length > 0 then newTitle else book.title,
   if newAuthor.length > 0 then newAuthor else book.author,
   newQty.getD book.qty⟩

/-- The five literal seed rows of `initialise_database`. -/
def initial_data : List Book :=
  [⟨3001, "A Tale of Two Cities", "Charles Dickens", 30⟩,
   ⟨3002, "Harry Potter and the Philosopher's Stone", "J. K. Rowling", 40⟩,
   ⟨3003, "The Lion, the Witch, and the Warderobe", "C. S. Lewis", 25⟩,
   ⟨3004, "The Lord of the Rings", "J. R. R. Tolkien", 37⟩,
   ⟨3005, "Alice in Wonderland", "Lewis Carroll", 12⟩]

/-- The database produced by seeding an empty table with `initial_data`
(the explicit ids drive the AUTOINCREMENT sequence up to 3005). -/
def seedDB : DB :=
  { rows := initial_data, seq := 3005 }

/-- `initialise_database`: if the file already exists its contents are kept
untouched; otherwise the table is created and the five seed rows are
inserted. -/
def initialise_database (databaseExists : Bool) (existing : DB) : DB :=
  if databaseExists then existing else seedDB

/-- One pass of the selection loop in `select_book_from_list` for an
entered integer `k`: `index = k - 1`; if `index < 0 or index >= len(books)`
the value `index + 1` is named in the re-prompt message (an `error`
result), otherwise `books[index]` is returned.  The list is only indexed
under the proof that the guard failed, so no out-of-range access can
occur. -/
def selectStep (books : List Book) (k : Int) : Except Int Book :=
  let index := k - 1
  if h : index < 0 ∨ (books.length : Int) ≤ index then
    .error (index + 1)
  else
    .ok (books.get ⟨index.toNat, by omega⟩)

/-- The `while True` selection loop of `select_book_from_list`, run on the
(finite) list of integers the user enters: the first accepted entry
returns its book, and exhausting the inputs without an accepted entry
leaves the loop still prompting (`none`). -/
def selectLoop (books : List Book) : List Int → Option Book
  | [] => none
  | k :: ks =>
    match selectStep books k with
    | .ok b => some b
    | .error _ => selectLoop books ks

/-- The action `main_menu` dispatches to. -/
inductive MenuAction
  | add
  | update
  | delete
  | search
  | exit
  | invalid
deriving DecidableEq

/-- One dispatch of `main_menu`: lower-case the entered line and compare it
against the five menu choices; anything else is the error branch that
re-displays the menu. -/
def menuDispatch (line : String) : MenuAction :=
  let choice := strLower line
  if choice = "1" then .add
  else if choice = "2" then .update
  else if choice = "3" then .delete
  else if choice = "4" then .search
  else if choice = "0" then .exit
  else .invalid

/-- The `while True` menu loop of `main_menu`, run on the (finite) list of
menu lines the user enters: `true` means the loop hit `return` (choice
"0"); `false` means the inputs were exhausted with the loop still
running. -/
def mainMenuSteps : List String → Bool
  | [] => false
  | l :: ls => if menuDispatch l = .exit then true else mainMenuSteps ls

/-! ### Lemmas about the `LIKE` matcher -/

/-- Unfolding the `%` case: the rest of the pattern must match some suffix
of the string. -/
theorem likeMatch_pct (ps : List Char) (s : List Char) :
    likeMatch ('%' :: ps) s = true ↔ ∃ t, t <:+ s ∧ likeMatch ps t = true := by
  simp [likeMatch, List.any_eq_true, List.mem_tails]

/-- Unfolding the `_` case on a non-empty string. -/
theorem likeMatch_underscore (ps : List Char) (c : Char) (s : List Char) :
    likeMatch ('_' :: ps) (c :: s) = likeMatch ps s := by
  simp [likeMatch]

/-- Unfolding the literal case on a non-empty string. -/
theorem likeMatch_lit (p : Char) (ps : List Char) (c : Char) (s : List Char)
    (hp : p ≠ '%') (hu : p ≠ '_') :
    likeMatch (p :: ps) (c :: s) = ((lc p == lc c) && likeMatch ps s) := by
  conv_lhs => rw [likeMatch.eq_def]
  split
  · simp_all
  · simp_all
  · simp_all
  · simp_all

/-- A pattern starting with anything but `%` rejects the empty string. -/
theorem likeMatch_nil_right (p : Char) (ps : List Char) (hp : p ≠ '%') :
    likeMatch (p :: ps) [] = false := by
  conv_lhs => rw [likeMatch.eq_def]
  split <;> simp_all

/-- Every pattern matches itself (each metacharacter can stand for its own
literal occurrence). -/
theorem likeSelf (q : List Char) : likeMatch q q = true := by
  induction q with
  | nil => rfl
  | cons p ps ih =>
    by_cases hp : p = '%'
    · subst hp
      rw [likeMatch_pct]
      exact ⟨ps, List.suffix_cons _ _, ih⟩
    · by_cases hu : p = '_'
      · subst hu; rw [likeMatch_underscore]; exact ih
      · rw [likeMatch_lit p ps p ps hp hu]
        simp [ih]

/-- Appending `%` to a pattern lets it absorb any extension of a string it
already matches. -/
theorem likeMatch_append_pct (p : List Char) :
    ∀ s w, likeMatch p s = true → likeMatch (p ++ ['%']) (s ++ w) = true := by
  induction p with
  | nil =>
    intro s w h
    have hs : s = [] := by simpa [likeMatch] using h
    subst hs
    rw [List.nil_append, List.nil_append, likeMatch_pct]
    exact ⟨[], List.nil_suffix, rfl⟩
  | cons p ps ih =>
    intro s w h
    by_cases hp : p = '%'
    · subst hp
      rw [likeMatch_pct] at h
      obtain ⟨t, ⟨u, hu⟩, hm⟩ := h
      rw [List.cons_append, likeMatch_pct]
      exact ⟨t ++ w, ⟨u, by rw [← List.append_assoc, hu]⟩, ih t w hm⟩
    · by_cases hu : p = '_'
      · subst hu
        cases s with
        | nil => simp [likeMatch] at h
        | cons c s' =>
          rw [likeMatch_underscore] at h
          rw [List.cons_append, List.cons_append, likeMatch_underscore]
          exact ih s' w h
      · cases s with
        | nil => rw [likeMatch_nil_right p ps hp] at h; cases h
        | cons c s' =>
          rw [likeMatch_lit p ps c s' hp hu] at h
          rw [Bool.and_eq_true] at h
          rw [List.cons_append, List.cons_append, likeMatch_lit _ _ _ _ hp hu]
          rw [Bool.and_eq_true]
          exact ⟨h.1, ih s' w h.2⟩

/-- Soundness of the wildcard wrapping for arbitrary queries: if the query
occurs literally inside the string, `%query%` matches the string. -/
theorem likeMatch_wrap_of_infix (q s : List Char) (h : q <:+: s) :
    likeMatch ('%' :: (q ++ ['%'])) s = true := by
  obtain ⟨u, w, rfl⟩ := h
  rw [likeMatch_pct]
  refine ⟨q ++ w, ⟨u, by rw [List.append_assoc]⟩, likeMatch_append_pct q q w (likeSelf q)⟩

/-- A metacharacter-free pattern matches exactly the strings equal to it up
to ASCII case. -/
theorem likeMatch_plain (q : List Char) (hq : plainPat q) :
    ∀ s, likeMatch q s = true ↔ q.map lc = s.map lc := by
  induction q with
  | nil =>
    intro s
    cases s <;> simp [likeMatch]
  | cons p ps ih =>
    intro s
    have hp : p ≠ '%' := (hq p (List.mem_cons_self p ps)).1
    have hu : p ≠ '_' := (hq p (List.mem_cons_self p ps)).2
    have hq' : plainPat ps := fun c hc => hq c (List.mem_cons_of_mem p hc)
    cases s with
    | nil => simp [likeMatch_nil_right p ps hp]
    | cons c s' =>
      rw [likeMatch_lit p ps c s' hp hu, Bool.and_eq_true, beq_iff_eq]
      simp only [List.map_cons, List.cons.injEq]
      rw [ih hq' s']

/-- A metacharacter-free pattern followed by `%` matches exactly the
strings with a prefix equal to it up to ASCII case. -/
theorem likeMatch_plain_pct (q : List Char) (hq : plainPat q) :
    ∀ s, likeMatch (q ++ ['%']) s = true ↔ ∃ v w, s = v ++ w ∧ q.map lc = v.map lc := by
  induction q with
  | nil =>
    intro s
    rw [List.nil_append, likeMatch_pct]
    constructor
    · intro _
      exact ⟨[], s, rfl, rfl⟩
    · intro _
      exact ⟨[], List.nil_suffix, rfl⟩
  | cons p ps ih =>
    intro s
    have hp : p ≠ '%' := (hq p (List.mem_cons_self p ps)).1
    have hu : p ≠ '_' := (hq p (List.mem_cons_self p ps)).2
    have hq' : plainPat ps := fun c hc => hq c (List.mem_cons_of_mem p hc)
    cases s with
    | nil =>
      rw [List.cons_append, likeMatch_nil_right _ _ hp]
      refine iff_of_false (by simp) ?_
      rintro ⟨v, w, hvw, hmap⟩
      cases v with
      | nil => simp at hmap
      | cons a b => simp at hvw
    | cons c s' =>
      rw [List.cons_append, likeMatch_lit _ _ _ _ hp hu, Bool.and_eq_true, beq_iff_eq]
      rw [ih hq' s']
      constructor
      · rintro ⟨hlc, v', w, rfl, hmap⟩
        exact ⟨c :: v', w, rfl, by simp [hlc, hmap]⟩
      · rintro ⟨v, w, hvw, hmap⟩
        cases v with
        | nil => simp at hmap
        | cons a v' =>
          rw [List.cons_append, List.cons.injEq] at hvw
          obtain ⟨rfl, rfl⟩ := hvw
          simp only [List.map_cons, List.cons.injEq] at hmap
          exact ⟨hmap.1, v', w, rfl, hmap.2⟩

/-- Completeness and soundness of the wildcard wrapping for
metacharacter-free queries: `%query%` matches a string exactly when the
query is an ASCII-case-insensitive substring of it. -/
theorem likeMatch_wrap_plain (q : List Char) (hq : plainPat q) (s : List Char) :
    likeMatch ('%' :: (q ++ ['%'])) s = true ↔ (q.map lc) <:+: (s.map lc) := by
  rw [likeMatch_pct]
  constructor
  · rintro ⟨t, ⟨u, rfl⟩, hm⟩
    obtain ⟨v, w, rfl, hmap⟩ := (likeMatch_plain_pct q hq t).mp hm
    exact ⟨u.map lc, w.map lc, by simp [hmap]⟩
  · rintro ⟨a, b, hab⟩
    rw [List.append_assoc] at hab
    obtain ⟨u, rest, rfl, hu, hrest⟩ := List.map_eq_append_iff.mp hab.symm
    obtain ⟨v, w, rfl, hv, hw⟩ := List.map_eq_append_iff.mp hrest
    refine ⟨v ++ w, ⟨u, rfl⟩, (likeMatch_plain_pct q hq _).mpr ⟨v, w, rfl, hv.symm⟩⟩

/-- The characters of the wrapped query. -/
theorem wrapQuery_data (q : String) : (wrapQuery q).data = '%' :: (q.data ++ ['%']) := by
  show (("%" ++ q) ++ "%").data = _
  rw [String.data_append, String.data_append]
  rfl

/-! ### Lemmas about ASCII lower-casing -/

/-- `Char.ofNat` on a valid codepoint round-trips through `toNat`. -/
theorem toNat_ofNat_valid (n : Nat) (h : n.isValidChar) : (Char.ofNat n).toNat = n := by
  rw [Char.ofNat, dif_pos h]
  rfl

/-- On an ASCII upper-case letter, `lc` adds 32 to the codepoint. -/
theorem lc_toNat_upper (c : Char) (h : 65 ≤ c.toNat ∧ c.toNat ≤ 90) :
    (lc c).toNat = c.toNat + 32 := by
  unfold lc
  rw [if_pos h]
  apply toNat_ofNat_valid
  left
  omega

/-- Outside the upper-case range, `lc` is the identity. -/
theorem lc_not_upper (c : Char) (h : ¬(65 ≤ c.toNat ∧ c.toNat ≤ 90)) : lc c = c := by
  unfold lc
  rw [if_neg h]

/-- Only a character below the lower-case range can be a fixed preimage:
if `lc c` lands on a codepoint below 97, `c` was already that character. -/
theorem lc_eq_of_small (c d : Char) (hd : d.toNat < 97) (h : lc c = d) : c = d := by
  by_cases hcase : 65 ≤ c.toNat ∧ c.toNat ≤ 90
  · exfalso
    have h1 := lc_toNat_upper c hcase
    rw [h] at h1
    omega
  · rw [lc_not_upper c hcase] at h
    exact h

/-- `lc` is idempotent. -/
theorem lc_idem (c : Char) : lc (lc c) = lc c := by
  apply lc_not_upper
  by_cases hcase : 65 ≤ c.toNat ∧ c.toNat ≤ 90
  · rw [lc_toNat_upper c hcase]
    omega
  · rw [lc_not_upper c hcase]
    exact hcase

/-- Character-list version of `lc_eq_of_small`: a lower-cased list equal to
a list of small codepoints forces equality of the originals. -/
theorem map_lc_eq_small (d : List Char) :
    ∀ e : List Char, (∀ c ∈ e, c.toNat < 97) → d.map lc = e → d = e := by
  induction d with
  | nil =>
    intro e _ h
    exact h
  | cons c d ih =>
    intro e he h
    cases e with
    | nil => simp at h
    | cons a e' =>
      simp only [List.map_cons, List.cons.injEq] at h
      have hc : c = a := lc_eq_of_small c a (he a (List.mem_cons_self a e')) h.1
      rw [hc, ih e' (fun x hx => he x (List.mem_cons_of_mem a hx)) h.2]

/-- If `.lower()` lands on a string of small codepoints (such as a digit
string), the original already was that string. -/
theorem strLower_eq_of_small (s t : String) (ht : ∀ c ∈ t.data, c.toNat < 97)
    (h : strLower s = t) : s = t := by
  obtain ⟨d⟩ := s
  obtain ⟨e⟩ := t
  have hd : d.map lc = e := congrArg String.data h
  exact congrArg String.mk (map_lc_eq_small d e ht hd)

/-- `.lower()` is idempotent. -/
theorem strLower_idem (s : String) : strLower (strLower s) = strLower s := by
  obtain ⟨d⟩ := s
  show String.mk ((d.map lc).map lc) = String.mk (d.map lc)
  refine congrArg String.mk ?_
  rw [List.map_map]
  exact List.map_congr_left (fun c _ => lc_idem c)

/-! ### Lemmas about the table operations -/

/-- After an `UPDATE ... WHERE id = i`, the first row with id `i` carries
exactly the three written fields, provided some row with id `i` existed. -/
theorem find?_id_update (rows : List Book) (i : Nat) (t a : String) (q : Int)
    (h : ∃ r ∈ rows, r.id = i) :
    (rows.map (fun b => if b.id = i then (⟨b.id, t, a, q⟩ : Book) else b)).find?
        (fun b => b.id == i) = some ⟨i, t, a, q⟩ := by
  induction rows with
  | nil => simp at h
  | cons r rs ih =>
    rw [List.map_cons]
    by_cases hri : r.id = i
    · rw [if_pos hri, hri]
      rw [List.find?_cons_of_pos]
      simp
    · rw [if_neg hri, List.find?_cons_of_neg]
      · apply ih
        obtain ⟨r', hr', hi'⟩ := h
        rcases List.mem_cons.mp hr' with rfl | hmem
        · exact absurd hi' hri
        · exact ⟨r', hmem, hi'⟩
      · simp [hri]

/-- An `UPDATE ... WHERE id = i` leaves the rows with other ids untouched. -/
theorem filter_ne_update (rows : List Book) (i : Nat) (t a : String) (q : Int) :
    (rows.map (fun b => if b.id = i then (⟨b.id, t, a, q⟩ : Book) else b)).filter
        (fun b => b.id ≠ i) = rows.filter (fun b => b.id ≠ i) := by
  induction rows with
  | nil => rfl
  | cons r rs ih =>
    rw [List.map_cons, List.filter_cons, List.filter_cons]
    simp only [ne_eq, decide_not] at ih ⊢
    by_cases hri : r.id = i
    · rw [if_pos hri]
      simp [hri, ih]
    · rw [if_neg hri]
      simp [hri, ih]

/-! ### Claim theorems -/

/-- **C1.** Inserting a valid (title, author, quantity) triple and then
searching with a query that occurs as a substring of the title or of the
author yields a result set containing a record with exactly the inserted
field values, whose id is the newly assigned one and differs from every id
already in the table. -/
theorem insert_then_find_contains (db : DB) (hinv : seqInv db)
    (t a : String) (q : Int) (hacc : addAccepts t a q) (qry : String)
    (hsub : qry.data <:+: t.data ∨ qry.data <:+: a.data) :
    ∃ b ∈ find_matching_books (insertBook db t a q).1.rows (wrapQuery qry),
      b.title = t ∧ b.author = a ∧ b.qty = q ∧
      b.id = (insertBook db t a q).2 ∧
      ∀ b0 ∈ db.rows, b0.id ≠ (insertBook db t a q).2 := by
  refine ⟨⟨db.seq + 1, t, a, q⟩, ?_, rfl, rfl, rfl, rfl, ?_⟩
  · rw [find_matching_books, List.mem_filter]
    constructor
    · show _ ∈ db.rows ++ _
      simp [insertBook]
    · rw [Bool.or_eq_true]
      rcases hsub with h | h
      · left
        show likeMatchStr (wrapQuery qry) t = true
        rw [likeMatchStr, wrapQuery_data]
        exact likeMatch_wrap_of_infix qry.data t.data h
      · right
        show likeMatchStr (wrapQuery qry) a = true
        rw [likeMatchStr, wrapQuery_data]
        exact likeMatch_wrap_of_infix qry.data a.data h
  · intro b0 hb0
    have := hinv b0 hb0
    show b0.id ≠ db.seq + 1
    omega

/-- Witness for C1: inserting ("Dune", "Frank Herbert", 10) into the seed
table and searching for "Dune" finds it, with the fresh id 3006. -/
theorem insert_then_find_contains_witness :
    seqInv seedDB ∧ addAccepts "Dune" "Frank Herbert" 10 ∧
    ∃ b ∈ find_matching_books (insertBook seedDB "Dune" "Frank Herbert" 10).1.rows
        (wrapQuery "Dune"),
      b.title = "Dune" ∧ b.author = "Frank Herbert" ∧ b.qty = 10 ∧
      b.id = (insertBook seedDB "Dune" "Frank Herbert" 10).2 ∧
      ∀ b0 ∈ seedDB.rows, b0.id ≠ (insertBook seedDB "Dune" "Frank Herbert" 10).2 :=
  ⟨by decide, by decide,
   insert_then_find_contains seedDB (by decide) "Dune" "Frank Herbert" 10 (by decide)
     "Dune" (Or.inl (by decide))⟩

/-- **C2.** The update workflow merges the selected record with the entered
fields — keeping the id, keeping each blank field, taking each non-blank
one — writes it with `UPDATE ... WHERE id`, after which fetching that id
returns exactly the merged record while rows with other ids are
unchanged. -/
theorem update_book_correct (db : DB) (b : Book) (hb : b ∈ db.rows)
    (nt na : String) (nq : Option Int) :
    (mergeBook b nt na nq).id = b.id ∧
    (mergeBook b nt na nq).title = (if nt.length > 0 then nt else b.title) ∧
    (mergeBook b nt na nq).author = (if na.length > 0 then na else b.author) ∧
    (∀ v : Int, nq = some v → (mergeBook b nt na nq).qty = v) ∧
    (nq = none → (mergeBook b nt na nq).qty = b.qty) ∧
    fetchBook (updateBook db b.id (mergeBook b nt na nq).title
        (mergeBook b nt na nq).author (mergeBook b nt na nq).qty) b.id
      = some (mergeBook b nt na nq) ∧
    (updateBook db b.id (mergeBook b nt na nq).title (mergeBook b nt na nq).author
        (mergeBook b nt na nq).qty).rows.filter (fun r => r.id ≠ b.id)
      = db.rows.filter (fun r => r.id ≠ b.id) := by
  refine ⟨rfl, rfl, rfl, ?_, ?_, ?_, ?_⟩
  · rintro v rfl
    rfl
  · rintro rfl
    rfl
  · exact find?_id_update db.rows b.id _ _ _ ⟨b, hb, rfl⟩
  · exact filter_ne_update db.rows b.id _ _ _

/-- Witness for C2: updating seed record 3001 with a blank title, a blank
author and a new quantity 7 leaves title and author and changes only the
stock level. -/
theorem update_book_correct_witness :
    fetchBook (updateBook seedDB 3001 "A Tale of Two Cities" "Charles Dickens" 7) 3001
      = some ⟨3001, "A Tale of Two Cities", "Charles Dickens", 7⟩ :=
  (update_book_correct seedDB ⟨3001, "A Tale of Two Cities", "Charles Dickens", 30⟩
    (by decide) "" "" (some 7)).2.2.2.2.2.1

/-- **C3.** `DELETE ... WHERE id = i` removes the record with id `i`: a
subsequent fetch of `i` finds nothing and no search result carries id `i`;
when no record with id `i` exists the delete leaves the table exactly
unchanged (and, being a total function, raises nothing). -/
theorem delete_book_correct (db : DB) (i : Nat) :
    fetchBook (delete_book db i) i = none ∧
    (∀ q : String, ∀ b ∈ find_matching_books (delete_book db i).rows q, b.id ≠ i) ∧
    (fetchBook db i = none → delete_book db i = db) := by
  refine ⟨?_, ?_, ?_⟩
  · rw [fetchBook, List.find?_eq_none]
    intro x hx
    have hne := (List.mem_filter.mp hx).2
    simp only [ne_eq, decide_not, Bool.not_eq_eq_eq_not, Bool.not_true, decide_eq_false_iff_not]
      at hne
    simp [hne]
  · intro q b hbf
    have hb := (List.mem_filter.mp hbf).1
    have hne := (List.mem_filter.mp hb).2
    simpa using hne
  · intro h
    rw [fetchBook, List.find?_eq_none] at h
    have hself : db.rows.filter (fun b => b.id ≠ i) = db.rows := by
      rw [List.filter_eq_self]
      intro b hb
      have := h b hb
      simpa using this
    show DB.mk _ _ = _
    rw [hself]

/-- Witness for C3: deleting id 3001 from the seed table makes the fetch of
3001 come back empty. -/
theorem delete_book_correct_witness :
    fetchBook (delete_book seedDB 3001) 3001 = none :=
  (delete_book_correct seedDB 3001).1

/-- **C4.** On a first run (no database file) initialisation seeds exactly
the five literal records with ids 3001–3005; when the file exists it seeds
nothing and the existing contents are returned untouched. -/
theorem initialise_database_correct (existing : DB) :
    (initialise_database false existing).rows =
      [⟨3001, "A Tale of Two Cities", "Charles Dickens", 30⟩,
       ⟨3002, "Harry Potter and the Philosopher's Stone", "J. K. Rowling", 40⟩,
       ⟨3003, "The Lion, the Witch, and the Warderobe", "C. S. Lewis", 25⟩,
       ⟨3004, "The Lord of the Rings", "J. R. R. Tolkien", 37⟩,
       ⟨3005, "Alice in Wonderland", "Lewis Carroll", 12⟩] ∧
    (initialise_database false existing).rows.length = 5 ∧
    (initialise_database false existing).rows.map Book.id = [3001, 3002, 3003, 3004, 3005] ∧
    initialise_database true existing = existing :=
  ⟨rfl, rfl, rfl, rfl⟩

/-- **C5.** For a displayed list of `N ≥ 1` books, an entered integer `k`
is accepted exactly when `1 ≤ k ≤ N`; acceptance returns the `k`-th book
of the enumeration (1-based) and rejection re-prompts with a message
naming the entered value `k` itself. -/
theorem select_book_in_range (books : List Book) (hN : 1 ≤ books.length) (k : Int) :
    ((∃ b, selectStep books k = .ok b) ↔ 1 ≤ k ∧ k ≤ (books.length : Int)) ∧
    (∀ b, selectStep books k = .ok b → books[(k - 1).toNat]? = some b) ∧
    (∀ m, selectStep books k = .error m → m = k) := by
  simp only [selectStep]
  split
  · rename_i h
    refine ⟨?_, ?_, ?_⟩
    · refine iff_of_false ?_ (by omega)
      rintro ⟨b, hb⟩
      simp at hb
    · intro b hb
      simp at hb
    · intro m hm
      simp only [Except.error.injEq] at hm
      omega
  · rename_i h
    refine ⟨?_, ?_, ?_⟩
    · exact iff_of_true ⟨_, rfl⟩ (by omega)
    · intro b hb
      simp only [Except.ok.injEq] at hb
      rw [List.getElem?_eq_getElem (by omega)]
      rw [← hb]
      rfl
    · intro m hm
      simp at hm

/-- Witness for C5: on the five seed books, entry 2 is accepted and returns
the second book. -/
theorem select_book_in_range_witness :
    ∃ b, selectStep initial_data 2 = .ok b :=
  ((select_book_in_range initial_data (by decide) 2).1).mpr (by decide)

/-- **C6 counterexample.** Matching is not plain substring containment for
every query: the query "_" returns all five seed records although none of
their titles or authors contains "_" as a substring, so the result set
differs from the substring-filtered one. -/
theorem find_matching_underscore_cex :
    find_matching_books initial_data (wrapQuery "_") = initial_data ∧
    (∀ b ∈ initial_data, containsCI "_" b.title = false ∧ containsCI "_" b.author = false) ∧
    ¬(find_matching_books initial_data (wrapQuery "_")
        = initial_data.filter (fun b => containsCI "_" b.title || containsCI "_" b.author)) := by
  refine ⟨by decide, by decide, by decide⟩

/-- **C6 (amended).** For every query free of the `LIKE` metacharacters `%`
and `_`, the search wraps the query in wildcards and returns exactly the
records whose title or author contains the query as an
ASCII-case-insensitive substring. -/
theorem find_matching_plain_substring (q : String) (hq : plainPat q.data) (rows : List Book) :
    find_matching_books rows (wrapQuery q)
      = rows.filter (fun b => containsCI q b.title || containsCI q b.author) := by
  rw [find_matching_books]
  apply List.filter_congr
  intro b _
  have hT : likeMatchStr (wrapQuery q) b.title = containsCI q b.title := by
    rw [likeMatchStr, wrapQuery_data, containsCI]
    rcases h : likeMatch ('%' :: (q.data ++ ['%'])) b.title.data with _ | _
    · rcases hd : decide ((q.data.map lc) <:+: (b.title.data.map lc)) with _ | _
      · rfl
      · exact absurd ((likeMatch_wrap_plain q.data hq b.title.data).mpr (of_decide_eq_true hd))
          (by simp [h])
    · exact (decide_eq_true ((likeMatch_wrap_plain q.data hq b.title.data).mp h)).symm
  have hA : likeMatchStr (wrapQuery q) b.author = containsCI q b.author := by
    rw [likeMatchStr, wrapQuery_data, containsCI]
    rcases h : likeMatch ('%' :: (q.data ++ ['%'])) b.author.data with _ | _
    · rcases hd : decide ((q.data.map lc) <:+: (b.author.data.map lc)) with _ | _
      · rfl
      · exact absurd ((likeMatch_wrap_plain q.data hq b.author.data).mpr (of_decide_eq_true hd))
          (by simp [h])
    · exact (decide_eq_true ((likeMatch_wrap_plain q.data hq b.author.data).mp h)).symm
  rw [hT, hA]

/-- Witness for C6 (amended): the metacharacter-free query "Potter" returns
exactly the substring matches, here the Harry Potter seed record. -/
theorem find_matching_plain_substring_witness :
    plainPat "Potter".data ∧
    find_matching_books initial_data (wrapQuery "Potter")
      = initial_data.filter (fun b => containsCI "Potter" b.title || containsCI "Potter" b.author) ∧
    find_matching_books initial_data (wrapQuery "Potter")
      = [⟨3002, "Harry Potter and the Philosopher's Stone", "J. K. Rowling", 40⟩] :=
  ⟨by decide, find_matching_plain_substring "Potter" (by decide) initial_data, by decide⟩

/-- **C7 counterexample.** Non-negativity of quantity is not an invariant:
the add workflow accepts the quantity −5 (its only guards are non-empty
title and author; `input_integer` performs no sign check) and the inserted
record carries a negative quantity. -/
theorem quantity_nonneg_cex :
    addAccepts "Some Title" "Some Author" (-5) ∧
    ∃ b ∈ (insertBook seedDB "Some Title" "Some Author" (-5)).1.rows, b.qty < 0 := by
  refine ⟨by decide, by decide⟩

/-- **C7 (amended).** Quantities are arbitrary integers: the add workflow
accepts any entered integer — including negative ones — and stores it
unchanged, and the update workflow writes any entered integer unchanged;
no operation enforces non-negativity. -/
theorem quantity_any_integer (db : DB) (t a : String) (q : Int) (hacc : addAccepts t a q) :
    (∃ b ∈ (insertBook db t a q).1.rows, b.title = t ∧ b.author = a ∧ b.qty = q) ∧
    (∀ (book : Book) (nt na : String) (v : Int), (mergeBook book nt na (some v)).qty = v) := by
  refine ⟨⟨⟨db.seq + 1, t, a, q⟩, ?_, rfl, rfl, rfl⟩, fun book nt na v => rfl⟩
  show _ ∈ db.rows ++ _
  simp [insertBook]

/-- Witness for C7 (amended): the quantity −5 is accepted and stored. -/
theorem quantity_any_integer_witness :
    ∃ b ∈ (insertBook seedDB "Some Title" "Some Author" (-5)).1.rows,
      b.title = "Some Title" ∧ b.author = "Some Author" ∧ b.qty = -5 :=
  (quantity_any_integer seedDB "Some Title" "Some Author" (-5) (by decide)).1

/-- The menu dispatch reaches the exit branch exactly on the line "0"
(after lower-casing, which fixes every digit). -/
theorem menuDispatch_exit_iff (s : String) : menuDispatch s = .exit ↔ s = "0" := by
  constructor
  · intro h
    simp only [menuDispatch] at h
    split_ifs at h with h1 h2 h3 h4 h5
    exact strLower_eq_of_small s "0" (by decide) h5
  · rintro rfl
    decide

/-- The menu loop hits `return` exactly when one of the entered lines is
"0". -/
theorem mainMenuSteps_iff (ls : List String) : mainMenuSteps ls = true ↔ "0" ∈ ls := by
  induction ls with
  | nil => simp [mainMenuSteps]
  | cons l ls ih =>
    rw [mainMenuSteps]
    by_cases hl : menuDispatch l = .exit
    · rw [if_pos hl]
      have hz : l = "0" := (menuDispatch_exit_iff l).mp hl
      simp [hz]
    · rw [if_neg hl, ih, List.mem_cons]
      constructor
      · exact Or.inr
      · rintro (rfl | hm)
        · exact absurd ((menuDispatch_exit_iff _).mpr rfl) hl
        · exact hm

/-- **C8.** The menu loop lower-cases the entered line and dispatches on
exact match: "1" adds, "2" updates, "3" deletes, "4" searches, "0" exits;
every other line lands in the error branch that redisplays the menu, and
the loop terminates exactly when a line "0" is entered. -/
theorem main_menu_correct :
    (menuDispatch "1" = .add ∧ menuDispatch "2" = .update ∧ menuDispatch "3" = .delete ∧
     menuDispatch "4" = .search ∧ menuDispatch "0" = .exit) ∧
    (∀ s : String, menuDispatch (strLower s) = menuDispatch s) ∧
    (∀ s : String, s ∉ (["1", "2", "3", "4", "0"] : List String) →
      menuDispatch s = .invalid) ∧
    (∀ s : String, menuDispatch s = .exit ↔ s = "0") ∧
    (∀ ls : List String, mainMenuSteps ls = true ↔ "0" ∈ ls) := by
  refine ⟨by refine ⟨by decide, by decide, by decide, by decide, by decide⟩, ?_, ?_, ?_, ?_⟩
  · intro s
    simp only [menuDispatch, strLower_idem]
  · intro s hs
    have hne : ∀ t ∈ (["1", "2", "3", "4", "0"] : List String), strLower s ≠ t := by
      intro t ht h
      apply hs
      have hsmall : ∀ c ∈ t.data, c.toNat < 97 := by
        simp only [List.mem_cons, List.not_mem_nil, or_false] at ht
        rcases ht with rfl | rfl | rfl | rfl | rfl <;> decide
      rw [strLower_eq_of_small s t hsmall h]
      exact ht
    unfold menuDispatch
    rw [if_neg (hne "1" (by decide)), if_neg (hne "2" (by decide)),
      if_neg (hne "3" (by decide)), if_neg (hne "4" (by decide)),
      if_neg (hne "0" (by decide))]
  · exact menuDispatch_exit_iff
  · exact mainMenuSteps_iff

/-- Witness for C8: "HELP" is not a menu choice and lands in the error
branch. -/
theorem main_menu_correct_witness : menuDispatch "HELP" = .invalid :=
  main_menu_correct.2.2.1 "HELP" (by decide)

/-- **C9.** When the selection step is handed the empty list (the user
declined to retry a zero-match query in the update or delete workflow),
every entered integer is rejected — the re-prompt names the entered value
and the guard `index < 0 or index >= 0` is always true, so the element
access is never reached — and the loop never returns a book, for any
finite sequence of inputs. -/
theorem empty_selection_never_returns :
    (∀ k : Int, selectStep ([] : List Book) k = .error k) ∧
    (∀ inputs : List Int, selectLoop ([] : List Book) inputs = none) := by
  have hstep : ∀ k : Int, selectStep ([] : List Book) k = .error k := by
    intro k
    simp only [selectStep]
    rw [dif_pos (by simp; omega)]
    congr 1
    omega
  refine ⟨hstep, ?_⟩
  intro inputs
  induction inputs with
  | nil => rfl
  | cons k ks ih =>
    rw [selectLoop, hstep k]
    exact ih

/-- **C10.** Because the user's query is embedded directly in the `LIKE`
pattern, its metacharacters act as wildcards rather than literals: the
query "_" matches every non-empty field, and on the seed table it returns
all five records although none of them contains a literal underscore. -/
theorem metachar_queries_are_wildcards :
    (∀ s : String, s.length > 0 → likeMatchStr (wrapQuery "_") s = true) ∧
    find_matching_books initial_data (wrapQuery "_") = initial_data ∧
    (∀ b ∈ initial_data, ¬("_".data <:+: b.title.data) ∧ ¬("_".data <:+: b.author.data)) := by
  refine ⟨?_, by decide, by decide⟩
  intro s hs
  rw [likeMatchStr, wrapQuery_data]
  rcases hd : s.data with _ | ⟨c, s'⟩
  · exfalso
    have : s.length = 0 := by
      show s.data.length = 0
      rw [hd]
      rfl
    omega
  · rw [likeMatch_pct]
    refine ⟨c :: s', List.suffix_refl _, ?_⟩
    show likeMatch ('_' :: ['%']) (c :: s') = true
    rw [likeMatch_underscore, likeMatch_pct]
    exact ⟨[], List.nil_suffix, rfl⟩

/-- Witness for C10: the query "_" matches the two-character string "ab",
which contains no underscore. -/
theorem metachar_queries_are_wildcards_witness :
    likeMatchStr (wrapQuery "_") "ab" = true :=
  metachar_queries_are_wildcards.1 "ab" (by decide)

end Bookstore
